import Mathlib

/-!
Verification of the apca endpoint layer: the comma codec used for order
symbols, the `ListReq` request type of the `/v2/orders` endpoint, the
endpoint error-table merge, the `ApiError` payload type and the
environment-based `ApiInfo` constructor.

Rust strings and byte buffers are modelled as lists of byte values
(`List Nat`); a Rust `String` is a UTF-8 byte sequence, so this is a
faithful (slightly more permissive) representation.
-/

/-- Rust strings and byte buffers, modelled as lists of byte values. -/
abbrev RStr : Type := List Nat

/-- Byte list of an ASCII string literal (code points mapped to bytes). -/
def bytes (s : String) : RStr := s.data.map Char.toNat

/-- Modelled from the spec: `crate::util::string_slice_to_str` (not under
`src/`) comma-joins an ordered sequence of strings into a single wire
string; the empty sequence encodes to the empty string.  Byte 44 is the
comma. -/
def commaJoin (xs : List RStr) : RStr := List.intercalate [44] xs

/-- Modelled from the spec: `crate::util::vec_from_comma_separated_str`
(not under `src/`) splits a wire string on commas; the empty string
decodes to the empty sequence, not to a one-element sequence containing
the empty string. -/
def commaSplit (s : RStr) : List RStr := if s = [] then [] else s.splitOn 44

/-- The status of orders to list (`Status` in `src/api/v2/orders.rs`). -/
inductive Status where
  | Open
  | Closed
  | All
  deriving DecidableEq

/-- The serde rename table of `Status`: `open` / `closed` / `all`. -/
def statusWireStr : Status → RStr
  | .Open => bytes "open"
  | .Closed => bytes "closed"
  | .All => bytes "all"

/-- Deserialization of `Status` from its lowercase wire string. -/
def statusFromWireStr (s : RStr) : Option Status :=
  if s = bytes "open" then some .Open
  else if s = bytes "closed" then some .Closed
  else if s = bytes "all" then some .All
  else none

/-- A GET request to be made to the /v2/orders endpoint (`ListReq` in
`src/api/v2/orders.rs`).  `limit` is `Option<usize>`, modelled as
`Option Nat`; the hidden `_non_exhaustive` field is the Rust unit. -/
structure ListReq where
  symbols : List RStr
  status : Status
  limit : Option Nat
  nested : Bool
  _non_exhaustive : Unit
  deriving DecidableEq

/-- The `impl Default for ListReq` in `src/api/v2/orders.rs`. -/
def ListReq.default : ListReq :=
  { symbols := [], status := .Open, limit := none, nested := true, _non_exhaustive := () }

theorem commaJoin_nil : commaJoin [] = [] := by
  simp [commaJoin, List.intercalate]

theorem commaSplit_nil : commaSplit [] = [] := by
  simp [commaSplit]

/-- A comma-free nonempty sequence other than `[[]]` has a nonempty join. -/
theorem commaJoin_ne_nil {xs : List RStr} (hxs : xs ≠ []) (hne : xs ≠ [[]]) :
    commaJoin xs ≠ [] := by
  match xs, hxs with
  | [x], _ =>
    intro h
    apply hne
    simp only [commaJoin, List.intercalate] at h
    simp at h
    simp [h]
  | x :: y :: t, _ =>
    intro h
    simp [commaJoin, List.intercalate, List.intersperse] at h

/-- The comma codec round-trips on comma-free sequences other than `[[]]`. -/
theorem commaSplit_commaJoin (xs : List RStr) (hcf : ∀ x ∈ xs, 44 ∉ x)
    (hne : xs ≠ [[]]) : commaSplit (commaJoin xs) = xs := by
  rcases eq_or_ne xs [] with h | h
  · subst h; simp [commaJoin_nil, commaSplit_nil]
  · rw [commaSplit, if_neg (commaJoin_ne_nil h hne)]
    exact List.splitOn_intercalate xs 44 hcf h

/-- C5: a `ListReq` built with no explicit overrides has `status = Open`,
`nested = true`, `limit = None`, `symbols = []`. -/
theorem listReq_default_fields :
    ListReq.default.status = Status.Open ∧ ListReq.default.nested = true ∧
    ListReq.default.limit = none ∧ ListReq.default.symbols = [] := by
  decide

/-- C3 counterexample: the one-element sequence containing the empty
string is comma-free, yet splitting its join yields the empty sequence. -/
theorem commaSplit_commaJoin_cex :
    commaSplit (commaJoin [([] : RStr)]) ≠ [([] : RStr)] := by
  decide

/-- C3 (amended): for any ordered sequence of comma-free strings other
than the one-element sequence containing the empty string, comma-splitting
the comma-joined encoding yields the original sequence; the empty sequence
encodes to the empty string; the empty string decodes to the empty
sequence. -/
theorem comma_codec_inverse (xs : List RStr) (hcf : ∀ x ∈ xs, 44 ∉ x)
    (hne : xs ≠ [[]]) :
    commaSplit (commaJoin xs) = xs ∧ commaJoin [] = [] ∧ commaSplit [] = [] :=
  ⟨commaSplit_commaJoin xs hcf hne, commaJoin_nil, commaSplit_nil⟩

/-- Witness for `comma_codec_inverse` at a concrete sequence. -/
theorem comma_codec_inverse_witness :
    (∀ x ∈ [bytes "AAPL", bytes "MSFT"], 44 ∉ x) ∧
    ([bytes "AAPL", bytes "MSFT"] ≠ [[]]) ∧
    (commaSplit (commaJoin [bytes "AAPL", bytes "MSFT"]) =
      [bytes "AAPL", bytes "MSFT"] ∧ commaJoin [] = [] ∧ commaSplit [] = []) :=
  ⟨by decide, by decide, comma_codec_inverse _ (by decide) (by decide)⟩

/-- Big-endian decimal digit bytes of `n`, with `fuel ≥ n` steps. -/
def natToDecGo : Nat → Nat → RStr
  | _, 0 => []
  | 0, _ => []
  | fuel + 1, n + 1 => natToDecGo fuel ((n + 1) / 10) ++ [(n + 1) % 10 + 48]

/-- Rendering of a `usize`/`u64` value as decimal ASCII bytes. -/
def natToDec (n : Nat) : RStr :=
  if n = 0 then [48] else natToDecGo n n

theorem natToDecGo_eq : ∀ fuel n, n ≤ fuel →
    natToDecGo fuel n = (Nat.digits 10 n).reverse.map (fun d => d + 48) := by
  intro fuel
  induction fuel with
  | zero =>
    intro n hn
    interval_cases n
    simp [natToDecGo]
  | succ fuel ih =>
    intro n hn
    cases n with
    | zero => simp [natToDecGo]
    | succ m =>
      have hdiv : (m + 1) / 10 ≤ fuel := by omega
      rw [natToDecGo, ih _ hdiv,
        Nat.digits_def' (by norm_num : (1:ℕ) < 10) (Nat.succ_pos m)]
      simp

theorem natToDec_eq_digits (n : Nat) (h : n ≠ 0) :
    natToDec n = (Nat.digits 10 n).reverse.map (fun d => d + 48) := by
  rw [natToDec, if_neg h, natToDecGo_eq n n le_rfl]

/-- Is the byte an ASCII decimal digit? -/
def isDigitByte (b : Nat) : Bool := decide (48 ≤ b ∧ b ≤ 57)

/-- Parsing of a decimal ASCII byte string into a number. -/
def decToNat? (s : RStr) : Option Nat :=
  if s ≠ [] ∧ s.all isDigitByte then
    some (s.foldl (fun a b => a * 10 + (b - 48)) 0)
  else none

theorem foldl_dec_reverse (l : List Nat) (a : Nat) :
    List.foldl (fun acc d => acc * 10 + d) a l.reverse =
      a * 10 ^ l.length + Nat.ofDigits 10 l := by
  induction l generalizing a with
  | nil => simp [Nat.ofDigits]
  | cons d t ih =>
    simp only [List.reverse_cons, List.foldl_append, List.foldl_cons,
      List.foldl_nil, ih, Nat.ofDigits_cons, List.length_cons, pow_succ]
    ring

/-- Decimal rendering and parsing are inverse. -/
theorem decToNat?_natToDec (n : Nat) : decToNat? (natToDec n) = some n := by
  rcases eq_or_ne n 0 with h | h
  · subst h; decide
  · have hdig : ∀ d ∈ Nat.digits 10 n, d < 10 := fun d hd =>
      Nat.digits_lt_base (by norm_num) hd
    have hne : Nat.digits 10 n ≠ [] := Nat.digits_ne_nil_iff_ne_zero.mpr h
    rw [natToDec_eq_digits n h, decToNat?, if_pos]
    · congr 1
      rw [List.foldl_map]
      have : (fun (a b : Nat) => a * 10 + (b + 48 - 48)) =
          fun (a d : Nat) => a * 10 + d := by
        funext a b; omega
      rw [this, foldl_dec_reverse, Nat.ofDigits_digits]
      ring
    · constructor
      · simp [hne]
      · rw [List.all_map, List.all_eq_true]
        intro d hd
        have := hdig d (List.mem_reverse.mp hd)
        simp only [Function.comp, isDigitByte, decide_eq_true_eq]
        omega

/-- Is the byte kept literally by `form_urlencoded` percent-encoding
(alphanumeric or one of `*`, `-`, `.`, `_`)?  Models the third-party
`url::form_urlencoded` serializer used by `serde_urlencoded`. -/
def isUnreservedByte (b : Nat) : Bool :=
  decide ((48 ≤ b ∧ b ≤ 57) ∨ (65 ≤ b ∧ b ≤ 90) ∨ (97 ≤ b ∧ b ≤ 122) ∨
    b = 42 ∨ b = 45 ∨ b = 46 ∨ b = 95)

/-- Uppercase hexadecimal digit byte for a nibble. -/
def hexDigitChar (n : Nat) : Nat := if n < 10 then 48 + n else 55 + n

/-- Percent-encoding of a single byte: literal if unreserved, `+` for
space, `%XY` otherwise. -/
def percentEncodeByte (b : Nat) : RStr :=
  if isUnreservedByte b then [b]
  else if b = 32 then [43]
  else [37, hexDigitChar (b / 16), hexDigitChar (b % 16)]

/-- Percent-encoding of a byte string. -/
def percentEncode (s : RStr) : RStr := (s.map percentEncodeByte).flatten

/-- Value of a hexadecimal digit byte. -/
def hexVal? (c : Nat) : Option Nat :=
  if 48 ≤ c ∧ c ≤ 57 then some (c - 48)
  else if 65 ≤ c ∧ c ≤ 70 then some (c - 55)
  else if 97 ≤ c ∧ c ≤ 102 then some (c - 87)
  else none

/-- Percent-decoding of a byte string (lenient on malformed escapes,
like `form_urlencoded::parse`). -/
def percentDecode : RStr → RStr
  | [] => []
  | b :: rest =>
    if b = 43 then 32 :: percentDecode rest
    else if b = 37 then
      match rest with
      | h :: l :: rest2 =>
        match hexVal? h, hexVal? l with
        | some hv, some lv => (hv * 16 + lv) :: percentDecode rest2
        | _, _ => 37 :: percentDecode (h :: l :: rest2)
      | [h] => 37 :: percentDecode [h]
      | [] => [37]
    else b :: percentDecode rest

theorem isUnreservedByte_props {b : Nat} (h : isUnreservedByte b = true) :
    b ≠ 43 ∧ b ≠ 37 ∧ b ≠ 38 ∧ b ≠ 61 ∧ b ≠ 32 := by
  simp only [isUnreservedByte, decide_eq_true_eq] at h
  omega

theorem hexVal?_hexDigitChar : ∀ n ≤ 15, hexVal? (hexDigitChar n) = some n := by
  decide

theorem percentDecode_encodeByte (b : Nat) (hb : b < 256) (rest : RStr) :
    percentDecode (percentEncodeByte b ++ rest) = b :: percentDecode rest := by
  by_cases hu : isUnreservedByte b = true
  · obtain ⟨h43, h37, -, -, -⟩ := isUnreservedByte_props hu
    rw [percentEncodeByte, if_pos hu]
    rw [List.cons_append, List.nil_append, percentDecode.eq_def]
    simp [h43, h37]
  · by_cases hsp : b = 32
    · subst hsp
      rw [percentEncodeByte, if_neg hu, if_pos rfl]
      rw [List.cons_append, List.nil_append, percentDecode.eq_def]
      simp
    · rw [percentEncodeByte, if_neg hu, if_neg hsp]
      have hhi : b / 16 ≤ 15 := by omega
      have hlo : b % 16 ≤ 15 := by omega
      simp only [List.cons_append, List.nil_append]
      rw [percentDecode.eq_def]
      simp [hexVal?_hexDigitChar _ hhi, hexVal?_hexDigitChar _ hlo]
      omega

/-- Percent-decoding inverts percent-encoding on byte strings. -/
theorem percentDecode_percentEncode (s : RStr) :
    (∀ b ∈ s, b < 256) → percentDecode (percentEncode s) = s := by
  induction s with
  | nil => intro; rfl
  | cons b t ih =>
    intro h
    have hb : b < 256 := h b (List.mem_cons_self b t)
    have ht : ∀ c ∈ t, c < 256 := fun c hc => h c (List.mem_cons_of_mem b hc)
    simp only [percentEncode, List.map_cons, List.flatten_cons]
    rw [percentDecode_encodeByte b hb, ← percentEncode]
    rw [ih ht]

theorem hexDigitChar_ne (n : Nat) : hexDigitChar n ≠ 38 ∧ hexDigitChar n ≠ 61 := by
  rw [hexDigitChar]
  split <;> omega

/-- Percent-encoded output never contains the separator bytes
`&` (38) or `=` (61). -/
theorem percentEncodeByte_no_sep (b c : Nat) (hc : c ∈ percentEncodeByte b) :
    c ≠ 38 ∧ c ≠ 61 := by
  rw [percentEncodeByte] at hc
  by_cases hu : isUnreservedByte b = true
  · rw [if_pos hu] at hc
    obtain ⟨-, -, h38, h61, -⟩ := isUnreservedByte_props hu
    simp only [List.mem_singleton] at hc
    subst hc; exact ⟨h38, h61⟩
  · rw [if_neg hu] at hc
    by_cases hsp : b = 32
    · rw [if_pos hsp] at hc
      simp only [List.mem_singleton] at hc
      omega
    · rw [if_neg hsp] at hc
      simp only [List.mem_cons, List.mem_singleton, List.not_mem_nil, or_false] at hc
      rcases hc with hc | hc | hc
      · omega
      · subst hc; exact hexDigitChar_ne _
      · subst hc; exact hexDigitChar_ne _

theorem percentEncode_no_sep (s : RStr) :
    ∀ c ∈ percentEncode s, c ≠ 38 ∧ c ≠ 61 := by
  induction s with
  | nil => intro c hc; simp [percentEncode] at hc
  | cons b t ih =>
    intro c hc
    simp only [percentEncode, List.map_cons, List.flatten_cons,
      List.mem_append] at hc
    rcases hc with hc | hc
    · exact percentEncodeByte_no_sep b c hc
    · exact ih c hc

/-- Rendering of key-value pairs as a query string: percent-encoded keys
and values joined by `=` (61) within a pair and `&` (38) between pairs
(model of the third-party `serde_urlencoded`/`form_urlencoded` writer). -/
def renderQueryPairs (ps : List (RStr × RStr)) : RStr :=
  List.intercalate [38] (ps.map fun p => percentEncode p.1 ++ 61 :: percentEncode p.2)

/-- Splitting of one query component at its first `=` byte; a component
without `=` is a key with an empty value (model of `form_urlencoded`). -/
def splitKV : RStr → RStr × RStr
  | [] => ([], [])
  | b :: rest =>
    if b = 61 then ([], rest)
    else
      let p := splitKV rest
      (b :: p.1, p.2)

/-- Parsing of a query string into decoded key-value pairs (model of the
third-party `form_urlencoded` reader used by `serde_urlencoded`). -/
def parseQueryString (s : RStr) : List (RStr × RStr) :=
  ((s.splitOn 38).filter (fun c => !c.isEmpty)).map
    (fun piece => (percentDecode (splitKV piece).1, percentDecode (splitKV piece).2))

theorem splitKV_append (k v : RStr) (hk : 61 ∉ k) :
    splitKV (k ++ 61 :: v) = (k, v) := by
  induction k with
  | nil => simp [splitKV]
  | cons b t ih =>
    have hb : b ≠ 61 := fun h => hk (by simp [h])
    have ht : 61 ∉ t := fun h => hk (List.mem_cons_of_mem b h)
    simp [splitKV, hb, ih ht]

/-- Parsing inverts rendering for pairs of byte strings. -/
theorem parseQueryString_renderQueryPairs (ps : List (RStr × RStr))
    (h : ∀ p ∈ ps, (∀ b ∈ p.1, b < 256) ∧ ∀ b ∈ p.2, b < 256) :
    parseQueryString (renderQueryPairs ps) = ps := by
  rcases eq_or_ne ps [] with hps | hps
  · subst hps
    simp [parseQueryString, renderQueryPairs, List.intercalate]
  · have hcomp : ∀ c ∈ ps.map (fun p => percentEncode p.1 ++ 61 :: percentEncode p.2),
        38 ∉ c := by
      intro c hc
      simp only [List.mem_map] at hc
      obtain ⟨p, hp, rfl⟩ := hc
      intro hmem
      simp only [List.mem_append, List.mem_cons] at hmem
      rcases hmem with hm | hm | hm
      · exact (percentEncode_no_sep _ _ hm).1 rfl
      · omega
      · exact (percentEncode_no_sep _ _ hm).1 rfl
    have hmapne : ps.map (fun p => percentEncode p.1 ++ 61 :: percentEncode p.2) ≠ [] := by
      simp [hps]
    rw [parseQueryString, renderQueryPairs,
      List.splitOn_intercalate _ 38 hcomp hmapne]
    have hfil : (ps.map (fun p => percentEncode p.1 ++ 61 :: percentEncode p.2)).filter
        (fun c => !c.isEmpty) =
        ps.map (fun p => percentEncode p.1 ++ 61 :: percentEncode p.2) := by
      rw [List.filter_eq_self]
      intro c hc
      simp only [List.mem_map] at hc
      obtain ⟨p, hp, rfl⟩ := hc
      simp [List.isEmpty_iff]
    rw [hfil, List.map_map]
    have : ∀ p ∈ ps,
        ((fun piece => (percentDecode (splitKV piece).1, percentDecode (splitKV piece).2)) ∘
          fun p => percentEncode p.1 ++ 61 :: percentEncode p.2) p = p := by
      intro p hp
      have h61 : 61 ∉ percentEncode p.1 := fun hm =>
        (percentEncode_no_sep _ _ hm).2 rfl
      simp only [Function.comp, splitKV_append _ _ h61]
      rw [percentDecode_percentEncode _ (h p hp).1,
        percentDecode_percentEncode _ (h p hp).2]
    rw [List.map_congr_left this]
    simp

/-- The intermediate serde value of one `ListReq` field under
`serde_urlencoded` serialization. -/
inductive QueryVal where
  | str (s : RStr)
  | nat (n : Nat)
  | bool (b : Bool)
  | null
  | seq (items : List RStr)

/-- The error type of the third-party `serde_urlencoded` serializer, the
payload of `ConversionError::UrlEncode` in `src/endpoint.rs`. -/
inductive UrlEncodeError where
  | unsupported
  deriving DecidableEq

/-- The serde field table of `ListReq` (`src/api/v2/orders.rs`): rename
attributes give the wire keys; `symbols` is serialized through the comma
join (`crate::util::string_slice_to_str`, modelled from the spec);
`_non_exhaustive` carries `#[serde(skip)]` and is absent. -/
def serializeFieldsQuery (req : ListReq) : List (RStr × QueryVal) :=
  [ (bytes "symbols", .str (commaJoin req.symbols)),
    (bytes "status", .str (statusWireStr req.status)),
    (bytes "limit", match req.limit with | some n => .nat n | none => .null),
    (bytes "nested", .bool req.nested) ]

/-- Model of the `serde_urlencoded` pair serializer: scalar values are
rendered as strings, a `None` value skips its pair, and sequence values
are unsupported and raise the URL-encode error. -/
def urlencodePairs : List (RStr × QueryVal) → Except UrlEncodeError (List (RStr × RStr))
  | [] => .ok []
  | (k, v) :: rest =>
    match v with
    | .seq _ => .error .unsupported
    | .null => urlencodePairs rest
    | .str s => (urlencodePairs rest).map (fun tail => (k, s) :: tail)
    | .nat n => (urlencodePairs rest).map (fun tail => (k, natToDec n) :: tail)
    | .bool b =>
      (urlencodePairs rest).map
        (fun tail => (k, if b then bytes "true" else bytes "false") :: tail)

/-- Model of `serde_urlencoded::to_string` applied to a `ListReq` (the `to_query`
call in `src/api/v2/orders.rs`). -/
def to_query (req : ListReq) : Except UrlEncodeError RStr :=
  (urlencodePairs (serializeFieldsQuery req)).map renderQueryPairs

/-- The `ConversionError` from `src/endpoint.rs`: a JSON conversion failure
or a URL-encoding failure. -/
inductive ConversionError where
  | json
  | urlEncode (e : UrlEncodeError)
  deriving DecidableEq

/-- The `List::path` of the orders List endpoint (`src/api/v2/orders.rs`). -/
def ListEndpoint.path (_input : ListReq) : RStr := bytes "/v2/orders"

/-- The `List::query` of the orders List endpoint (`src/api/v2/orders.rs`):
`Ok(Some(to_query(input)?.into()))`. -/
def ListEndpoint.query (input : ListReq) : Except ConversionError (Option RStr) :=
  match to_query input with
  | .ok s => .ok (some s)
  | .error e => .error (.urlEncode e)

/-- serde deserialization of a `bool` from its wire string. -/
def boolFromWireStr (s : RStr) : Option Bool :=
  if s = bytes "true" then some true
  else if s = bytes "false" then some false
  else none

/-- Accumulator for field-by-field struct deserialization (serde derive
semantics: a duplicate field errors, unknown fields are ignored). -/
structure ListReqAcc where
  symbols : Option (List RStr)
  status : Option Status
  limit : Option (Option Nat)
  nested : Option Bool

/-- The all-unseen accumulator. -/
def emptyListReqAcc : ListReqAcc := ⟨none, none, none, none⟩

/-- End-of-input step: `symbols` defaults to the empty sequence
(`#[serde(default)]`), a missing `limit` is `None` (serde `Option`
semantics), while `status` and `nested` are required fields. -/
def finishListReq (acc : ListReqAcc) : Option ListReq :=
  match acc.status, acc.nested with
  | some st, some b =>
    some { symbols := acc.symbols.getD [], status := st,
           limit := acc.limit.getD none, nested := b, _non_exhaustive := () }
  | _, _ => none

/-- Field dispatch for deserializing a `ListReq` from decoded pairs,
mirroring the serde derive visitor with the field codecs of
`src/api/v2/orders.rs` (`symbols` via the comma split). -/
def listReqFromPairs : List (RStr × RStr) → ListReqAcc → Option ListReq
  | [], acc => finishListReq acc
  | (k, v) :: rest, acc =>
    if k = bytes "symbols" then
      match acc.symbols with
      | some _ => none
      | none => listReqFromPairs rest { acc with symbols := some (commaSplit v) }
    else if k = bytes "status" then
      match acc.status, statusFromWireStr v with
      | none, some st => listReqFromPairs rest { acc with status := some st }
      | _, _ => none
    else if k = bytes "limit" then
      match acc.limit, decToNat? v with
      | none, some n => listReqFromPairs rest { acc with limit := some (some n) }
      | _, _ => none
    else if k = bytes "nested" then
      match acc.nested, boolFromWireStr v with
      | none, some b => listReqFromPairs rest { acc with nested := some b }
      | _, _ => none
    else listReqFromPairs rest acc

/-- Model of `serde_urlencoded::from_str` for `ListReq`. -/
def ListReq.from_query (s : RStr) : Option ListReq :=
  listReqFromPairs (parseQueryString s) emptyListReqAcc

/-- The decoded pair list produced by URL-encoding a `ListReq`:
`symbols` and `status` always, `limit` only when set, `nested` always. -/
def listReqQueryPairs (req : ListReq) : List (RStr × RStr) :=
  (bytes "symbols", commaJoin req.symbols) ::
    (bytes "status", statusWireStr req.status) ::
    ((match req.limit with
      | some n => [(bytes "limit", natToDec n)]
      | none => []) ++
     [(bytes "nested", if req.nested then bytes "true" else bytes "false")])

theorem urlencodePairs_serializeFields (req : ListReq) :
    urlencodePairs (serializeFieldsQuery req) = .ok (listReqQueryPairs req) := by
  obtain ⟨syms, st, lim, ns, u⟩ := req
  cases lim <;> rfl

theorem to_query_eq (req : ListReq) :
    to_query req = .ok (renderQueryPairs (listReqQueryPairs req)) := by
  rw [to_query, urlencodePairs_serializeFields]
  rfl

theorem commaJoin_bytes_lt (xs : List RStr) (h : ∀ x ∈ xs, ∀ b ∈ x, b < 256) :
    ∀ b ∈ commaJoin xs, b < 256 := by
  induction xs with
  | nil => intro b hb; rw [commaJoin_nil] at hb; simp at hb
  | cons x t ih =>
    intro b hb
    cases t with
    | nil =>
      simp only [commaJoin, List.intercalate, List.intersperse,
        List.flatten, List.append_nil] at hb
      exact h x (by simp) b hb
    | cons y tt =>
      rw [commaJoin, List.intercalate, List.intersperse_cons_cons,
        List.flatten_cons, List.flatten_cons] at hb
      simp only [List.mem_append, List.singleton_append, List.mem_cons] at hb
      rcases hb with hb | hb | hb
      · exact h x (by simp) b hb
      · omega
      · refine ih (fun z hz => h z (by simp [hz])) b ?_
        rw [commaJoin, List.intercalate]
        exact hb

theorem natToDec_bytes_lt (n : Nat) : ∀ b ∈ natToDec n, b < 256 := by
  intro b hb
  rcases eq_or_ne n 0 with h | h
  · subst h; simp [natToDec] at hb; omega
  · rw [natToDec_eq_digits n h] at hb
    simp only [List.mem_map, List.mem_reverse] at hb
    obtain ⟨d, hd, rfl⟩ := hb
    have := Nat.digits_lt_base (by norm_num) hd
    omega

theorem statusWireStr_bytes_lt (st : Status) : ∀ b ∈ statusWireStr st, b < 256 := by
  cases st <;> decide

theorem listReqQueryPairs_bytes (req : ListReq)
    (hb : ∀ x ∈ req.symbols, ∀ b ∈ x, b < 256) :
    ∀ p ∈ listReqQueryPairs req, (∀ b ∈ p.1, b < 256) ∧ ∀ b ∈ p.2, b < 256 := by
  intro p hp
  rw [listReqQueryPairs] at hp
  simp only [List.mem_cons, List.mem_append, List.mem_singleton] at hp
  rcases hp with rfl | rfl | hp | rfl | hp
  · exact ⟨by show ∀ b ∈ bytes "symbols", b < 256; decide, commaJoin_bytes_lt _ hb⟩
  · exact ⟨by show ∀ b ∈ bytes "status", b < 256; decide, statusWireStr_bytes_lt _⟩
  · rcases hlim : req.limit with _ | n
    · rw [hlim] at hp; simp at hp
    · rw [hlim] at hp
      simp only [List.mem_singleton] at hp
      subst hp
      exact ⟨by show ∀ b ∈ bytes "limit", b < 256; decide, natToDec_bytes_lt _⟩
  · refine ⟨by show ∀ b ∈ bytes "nested", b < 256; decide, ?_⟩
    rcases req.nested with _ | _ <;> simp <;> decide
  · simp at hp

theorem listReqFromPairs_listReqQueryPairs (req : ListReq)
    (hcf : ∀ x ∈ req.symbols, 44 ∉ x) (hne : req.symbols ≠ [[]]) :
    listReqFromPairs (listReqQueryPairs req) emptyListReqAcc = some req := by
  obtain ⟨syms, st, lim, ns, u⟩ := req
  cases u
  have hsplit := commaSplit_commaJoin syms hcf hne
  cases lim with
  | none =>
    cases st <;> cases ns <;>
      simp +decide [listReqQueryPairs, listReqFromPairs, emptyListReqAcc,
        finishListReq, statusWireStr, statusFromWireStr, boolFromWireStr, hsplit]
  | some n =>
    have hdec := decToNat?_natToDec n
    cases st <;> cases ns <;>
      simp +decide [listReqQueryPairs, listReqFromPairs, emptyListReqAcc,
        finishListReq, statusWireStr, statusFromWireStr, boolFromWireStr,
        hsplit, hdec]

/-- The full query round-trip for `ListReq`: URL-encode succeeds and
decoding the produced query string restores the request. -/
theorem listReq_query_roundtrip (req : ListReq)
    (hcf : ∀ x ∈ req.symbols, 44 ∉ x) (hne : req.symbols ≠ [[]])
    (hb : ∀ x ∈ req.symbols, ∀ b ∈ x, b < 256) :
    ∃ q, to_query req = .ok q ∧ ListReq.from_query q = some req := by
  refine ⟨renderQueryPairs (listReqQueryPairs req), to_query_eq req, ?_⟩
  rw [ListReq.from_query,
    parseQueryString_renderQueryPairs _ (listReqQueryPairs_bytes req hb),
    listReqFromPairs_listReqQueryPairs req hcf hne]

/-- JSON values at the AST level; the text layer of the third-party
`serde_json` is modelled separately by `jsonParse`. -/
inductive Json where
  | null
  | bool (b : Bool)
  | num (n : Nat)
  | str (s : RStr)
  | arr (items : List Json)
  | obj (fields : List (RStr × Json))

/-- serde JSON serialization of `ListReq` (`src/api/v2/orders.rs`):
`symbols` through the comma join, `status` through the rename table,
`limit` as a number or `null`, `nested` as a bool; `_non_exhaustive`
carries `#[serde(skip)]` and is absent. -/
def ListReq.toJson (req : ListReq) : Json :=
  .obj [ (bytes "symbols", .str (commaJoin req.symbols)),
         (bytes "status", .str (statusWireStr req.status)),
         (bytes "limit", match req.limit with | some n => .num n | none => .null),
         (bytes "nested", .bool req.nested) ]

/-- Decode of the `symbols` field: a JSON string, comma-split. -/
def symbolsFromJson : Json → Option (List RStr)
  | .str s => some (commaSplit s)
  | _ => none

/-- Decode of the `status` field from JSON. -/
def statusFromJson : Json → Option Status
  | .str s => statusFromWireStr s
  | _ => none

/-- Decode of the `limit` field from JSON: number or null. -/
def limitFromJson : Json → Option (Option Nat)
  | .num n => some (some n)
  | .null => some none
  | _ => none

/-- Decode of the `nested` field from JSON. -/
def nestedFromJson : Json → Option Bool
  | .bool b => some b
  | _ => none

/-- Field dispatch for deserializing a `ListReq` from JSON object fields
(serde derive semantics, same accumulator as the query path). -/
def listReqFromJsonFields : List (RStr × Json) → ListReqAcc → Option ListReq
  | [], acc => finishListReq acc
  | (k, v) :: rest, acc =>
    if k = bytes "symbols" then
      match acc.symbols, symbolsFromJson v with
      | none, some syms => listReqFromJsonFields rest { acc with symbols := some syms }
      | _, _ => none
    else if k = bytes "status" then
      match acc.status, statusFromJson v with
      | none, some st => listReqFromJsonFields rest { acc with status := some st }
      | _, _ => none
    else if k = bytes "limit" then
      match acc.limit, limitFromJson v with
      | none, some l => listReqFromJsonFields rest { acc with limit := some l }
      | _, _ => none
    else if k = bytes "nested" then
      match acc.nested, nestedFromJson v with
      | none, some b => listReqFromJsonFields rest { acc with nested := some b }
      | _, _ => none
    else listReqFromJsonFields rest acc

/-- serde JSON deserialization of `ListReq`: an object is required. -/
def ListReq.fromJson : Json → Option ListReq
  | .obj fields => listReqFromJsonFields fields emptyListReqAcc
  | _ => none

theorem listReq_json_roundtrip (req : ListReq)
    (hcf : ∀ x ∈ req.symbols, 44 ∉ x) (hne : req.symbols ≠ [[]]) :
    ListReq.fromJson (ListReq.toJson req) = some req := by
  obtain ⟨syms, st, lim, ns, u⟩ := req
  cases u
  have hsplit := commaSplit_commaJoin syms hcf hne
  cases lim <;> cases st <;> cases ns <;>
    simp +decide [ListReq.toJson, ListReq.fromJson, listReqFromJsonFields,
      symbolsFromJson, statusFromJson, statusFromWireStr, statusWireStr,
      limitFromJson, nestedFromJson, emptyListReqAcc, finishListReq, hsplit]

/-- C4 counterexample: a request whose sole symbol is the string `","`
does not survive the JSON round-trip (the comma join is not injective on
comma-containing symbols). -/
theorem listReq_roundtrip_cex :
    ListReq.fromJson (ListReq.toJson
        ⟨[[44]], Status.Open, none, true, ()⟩) ≠
      some ⟨[[44]], Status.Open, none, true, ()⟩ := by
  decide

/-- C4 (amended): for every `ListReq` whose symbols are comma-free byte
strings and whose symbols sequence is not the one-element sequence
containing the empty string, JSON-encode then JSON-decode restores the
request, and URL-encode then URL-decode restores the request (the empty
symbols sequence serializes to an explicit empty `symbols` value). -/
theorem listReq_roundtrip (req : ListReq)
    (hcf : ∀ x ∈ req.symbols, 44 ∉ x) (hne : req.symbols ≠ [[]])
    (hb : ∀ x ∈ req.symbols, ∀ b ∈ x, b < 256) :
    ListReq.fromJson (ListReq.toJson req) = some req ∧
    ∃ q, to_query req = .ok q ∧ ListReq.from_query q = some req :=
  ⟨listReq_json_roundtrip req hcf hne, listReq_query_roundtrip req hcf hne hb⟩

/-- Witness for `listReq_roundtrip` at the default request, whose
`symbols` sequence is empty. -/
theorem listReq_roundtrip_witness :
    (∀ x ∈ ListReq.default.symbols, 44 ∉ x) ∧
    (ListReq.default.symbols ≠ [[]]) ∧
    (∀ x ∈ ListReq.default.symbols, ∀ b ∈ x, b < 256) ∧
    (ListReq.fromJson (ListReq.toJson ListReq.default) = some ListReq.default ∧
     ∃ q, to_query ListReq.default = .ok q ∧
       ListReq.from_query q = some ListReq.default) :=
  ⟨by decide, by decide, by decide,
    listReq_roundtrip ListReq.default (by decide) (by decide) (by decide)⟩

/-- The request of the end-to-end example. -/
def exampleListReq : ListReq :=
  { symbols := [bytes "ABC"], status := .Closed, limit := some 42,
    nested := true, _non_exhaustive := () }

/-- C6: the example request serializes to the query parameters
`symbols=ABC`, `status=closed`, `limit=42`, `nested=true`, the query
string round-trips back to an equal request, and the status enum
serializes to exactly the lowercase literals. -/
theorem example_query_exact :
    to_query exampleListReq =
      .ok (bytes "symbols=ABC&status=closed&limit=42&nested=true") ∧
    ListReq.from_query (bytes "symbols=ABC&status=closed&limit=42&nested=true") =
      some exampleListReq ∧
    statusWireStr .Open = bytes "open" ∧
    statusWireStr .Closed = bytes "closed" ∧
    statusWireStr .All = bytes "all" := by
  refine ⟨by rfl, by decide, rfl, rfl, rfl⟩

/-- C10: the query builder of the List endpoint returns `Ok(Some(q))`
for every input: the URL-encoding failure branch is unreachable for
`ListReq` and the query is never absent. -/
theorem list_query_always_some (req : ListReq) :
    ∃ q, ListEndpoint.query req = .ok (some q) := by
  refine ⟨renderQueryPairs (listReqQueryPairs req), ?_⟩
  simp [ListEndpoint.query, to_query_eq req]

/-- The keys of a JSON object value. -/
def jsonObjKeys : Json → List RStr
  | .obj fields => fields.map (fun p => p.1)
  | _ => []

/-- C9: the reserved `_non_exhaustive` marker never appears in the JSON
or query serialization of any request, deserialization does not require
it, and equality of requests is determined by the four public fields. -/
theorem non_exhaustive_invisible (a b req : ListReq) :
    (a = b ↔ (a.symbols = b.symbols ∧ a.status = b.status ∧
      a.limit = b.limit ∧ a.nested = b.nested)) ∧
    (bytes "_non_exhaustive" ∉ jsonObjKeys (ListReq.toJson req)) ∧
    (∀ p ∈ serializeFieldsQuery req, p.1 ≠ bytes "_non_exhaustive") ∧
    (ListReq.from_query (bytes "symbols=&status=open&nested=true") =
      some ListReq.default) := by
  refine ⟨?_, ?_, ?_, by decide⟩
  · constructor
    · intro h; subst h; exact ⟨rfl, rfl, rfl, rfl⟩
    · rintro ⟨h1, h2, h3, h4⟩
      obtain ⟨s1, st1, l1, n1, u1⟩ := a
      obtain ⟨s2, st2, l2, n2, u2⟩ := b
      cases u1; cases u2
      simp_all
  · show bytes "_non_exhaustive" ∉
      [bytes "symbols", bytes "status", bytes "limit", bytes "nested"]
    decide
  · intro p hp
    simp only [serializeFieldsQuery, List.mem_cons, List.mem_singleton,
      List.not_mem_nil, or_false] at hp
    rcases hp with rfl | rfl | rfl | rfl
    · show bytes "symbols" ≠ bytes "_non_exhaustive"; decide
    · show bytes "status" ≠ bytes "_non_exhaustive"; decide
    · show bytes "limit" ≠ bytes "_non_exhaustive"; decide
    · show bytes "nested" ≠ bytes "_non_exhaustive"; decide

/-- Whitespace skip for the JSON reader. -/
def skipWs : RStr → RStr
  | b :: rest =>
    if b = 32 ∨ b = 9 ∨ b = 10 ∨ b = 13 then skipWs rest else b :: rest
  | [] => []

/-- JSON string escape table (subset model of serde_json: the common
single-character escapes, no \uXXXX form). -/
def escByte (e : Nat) : Option Nat :=
  if e = 34 then some 34
  else if e = 92 then some 92
  else if e = 47 then some 47
  else if e = 98 then some 8
  else if e = 102 then some 12
  else if e = 110 then some 10
  else if e = 114 then some 13
  else if e = 116 then some 9
  else none

/-- JSON string body reader, positioned after the opening quote. -/
def parseStringBody : RStr → Option (RStr × RStr)
  | [] => none
  | b :: rest =>
    if b = 34 then some ([], rest)
    else if b = 92 then
      match rest with
      | [] => none
      | e :: rest2 =>
        match escByte e with
        | some c => (parseStringBody rest2).map (fun p => (c :: p.1, p.2))
        | none => none
    else (parseStringBody rest).map (fun p => (b :: p.1, p.2))

/-- Longest leading digit run and the remainder. -/
def takeDigits : RStr → RStr × RStr
  | [] => ([], [])
  | b :: rest =>
    if isDigitByte b then
      let p := takeDigits rest
      (b :: p.1, p.2)
    else ([], b :: rest)

mutual

/-- Fuel-indexed JSON value reader: a model of the third-party
serde_json text layer (nonnegative integer numerals, common escapes). -/
def parseJsonVal : Nat → RStr → Option (Json × RStr)
  | 0, _ => none
  | fuel + 1, s =>
    match skipWs s with
    | [] => none
    | b :: rest =>
      if b = 110 then
        match rest with
        | 117 :: 108 :: 108 :: r => some (.null, r)
        | _ => none
      else if b = 116 then
        match rest with
        | 114 :: 117 :: 101 :: r => some (.bool true, r)
        | _ => none
      else if b = 102 then
        match rest with
        | 97 :: 108 :: 115 :: 101 :: r => some (.bool false, r)
        | _ => none
      else if b = 34 then
        (parseStringBody rest).map (fun p => (.str p.1, p.2))
      else if isDigitByte b then
        match decToNat? (takeDigits (b :: rest)).1 with
        | some n => some (.num n, (takeDigits (b :: rest)).2)
        | none => none
      else if b = 123 then
        match skipWs rest with
        | 125 :: r => some (.obj [], r)
        | r2 => parseObjFields fuel r2 []
      else if b = 91 then
        match skipWs rest with
        | 93 :: r => some (.arr [], r)
        | r2 => parseArrItems fuel r2 []
      else none

/-- Object member loop: reads a quoted key, a colon and a value, then a
comma (more members) or a closing brace. -/
def parseObjFields : Nat → RStr → List (RStr × Json) → Option (Json × RStr)
  | 0, _, _ => none
  | fuel + 1, s, acc =>
    match s with
    | 34 :: r =>
      (match parseStringBody r with
       | none => none
       | some (key, r2) =>
         match skipWs r2 with
         | 58 :: r3 =>
           (match parseJsonVal fuel r3 with
            | none => none
            | some (v, r4) =>
              match skipWs r4 with
              | 44 :: r5 => parseObjFields fuel (skipWs r5) ((key, v) :: acc)
              | 125 :: r5 => some (.obj ((key, v) :: acc).reverse, r5)
              | _ => none)
         | _ => none)
    | _ => none

/-- Array item loop: reads a value, then a comma or a closing bracket. -/
def parseArrItems : Nat → RStr → List Json → Option (Json × RStr)
  | 0, _, _ => none
  | fuel + 1, s, acc =>
    match parseJsonVal fuel s with
    | none => none
    | some (v, r) =>
      match skipWs r with
      | 44 :: r2 => parseArrItems fuel r2 (v :: acc)
      | 93 :: r2 => some (.arr (v :: acc).reverse, r2)
      | _ => none

end

/-- Whole-input JSON parse: one value followed only by whitespace. -/
def jsonParse (s : RStr) : Option Json :=
  match parseJsonVal (s.length + 1) s with
  | some (v, rest) => if skipWs rest = [] then some v else none
  | none => none

/-- An error as reported by API endpoints (ApiError in
src/endpoint.rs): an optional numeric code and a required message. -/
structure ApiError where
  code : Option Nat
  message : RStr
  deriving DecidableEq

/-- Decode of the code field: a JSON number or null (Option of u64). -/
def codeFromJson : Json → Option (Option Nat)
  | .num n => some (some n)
  | .null => some none
  | _ => none

/-- Decode of the message field: a JSON string. -/
def messageFromJson : Json → Option RStr
  | .str s => some s
  | _ => none

/-- Accumulator for ApiError deserialization. -/
structure ApiErrorAcc where
  code : Option (Option Nat)
  message : Option RStr

/-- Field dispatch for deserializing an ApiError from JSON object
fields (serde derive semantics: message is required, a missing code is
None, duplicate fields error, unknown fields are ignored). -/
def apiErrorFromFields : List (RStr × Json) → ApiErrorAcc → Option ApiError
  | [], acc =>
    (match acc.message with
     | some msg => some ⟨acc.code.getD none, msg⟩
     | none => none)
  | (k, v) :: rest, acc =>
    if k = bytes "code" then
      match acc.code, codeFromJson v with
      | none, some c => apiErrorFromFields rest { acc with code := some c }
      | _, _ => none
    else if k = bytes "message" then
      match acc.message, messageFromJson v with
      | none, some m => apiErrorFromFields rest { acc with message := some m }
      | _, _ => none
    else apiErrorFromFields rest acc

/-- serde JSON deserialization of ApiError at the value level. -/
def ApiError.fromJson : Json → Option ApiError
  | .obj fields => apiErrorFromFields fields ⟨none, none⟩
  | _ => none

/-- Model of serde_json::from_slice::<ApiError> on raw body bytes. -/
def apiErrorFromBytes (body : RStr) : Option ApiError :=
  (jsonParse body).bind ApiError.fromJson

/-- Default parse_err supplied by the Endpoint! macro in
src/endpoint.rs: decode the body as ApiError, and on any decode failure
return the raw input bytes unchanged as the error payload. -/
def parse_err (body : RStr) : Except RStr ApiError :=
  match apiErrorFromBytes body with
  | some e => .ok e
  | none => .error body

/-- C2: a body that decodes as the structured ApiError shape is returned
structured, and any body that does not decode is returned as the raw
input bytes unmodified; a malformed error body is never promoted to a
conversion failure. -/
theorem parse_err_fallback (body : RStr) :
    (∀ e, apiErrorFromBytes body = some e → parse_err body = .ok e) ∧
    (apiErrorFromBytes body = none → parse_err body = .error body) := by
  constructor
  · intro e he; simp [parse_err, he]
  · intro he; simp [parse_err, he]

/-- Witness for parse_err_fallback: a structured error body decodes, and
the plain-text body of the spec example falls back to the raw bytes. -/
theorem parse_err_fallback_witness :
    (apiErrorFromBytes (bytes "\x7b\"code\": 42, \"message\": \"boom\"\x7d") =
        some ⟨some 42, bytes "boom"⟩ ∧
      parse_err (bytes "\x7b\"code\": 42, \"message\": \"boom\"\x7d") =
        .ok ⟨some 42, bytes "boom"⟩) ∧
    (apiErrorFromBytes (bytes "server exploded") = none ∧
      parse_err (bytes "server exploded") =
        .error (bytes "server exploded")) :=
  ⟨⟨by decide,
    (parse_err_fallback (bytes "\x7b\"code\": 42, \"message\": \"boom\"\x7d")).1
      ⟨some 42, bytes "boom"⟩ (by decide)⟩,
   ⟨by decide,
    (parse_err_fallback (bytes "server exploded")).2 (by decide)⟩⟩

/-- Rendering helper of the Display impl: format_code from
src/endpoint.rs appends a parenthesized code when one is present. -/
def format_code : Option Nat → RStr
  | some code => bytes " (" ++ natToDec code ++ bytes ")"
  | none => []

/-- Display of ApiError from src/endpoint.rs: the message followed by
the formatted code. -/
def ApiError.display (e : ApiError) : RStr := e.message ++ format_code e.code

/-- C7: ApiError equality is value-based on the (code, message) pair;
decoding an object carrying only a message yields code = None, while a
missing message fails; display is the message followed by a
parenthesized code exactly when the code is present. -/
theorem apiError_value_semantics (a b : ApiError) (msg : RStr) (c : Nat) :
    (a = b ↔ (a.code = b.code ∧ a.message = b.message)) ∧
    (ApiError.fromJson (.obj [(bytes "message", .str msg)]) = some ⟨none, msg⟩) ∧
    (ApiError.fromJson (.obj [(bytes "code", .num c)]) = none) ∧
    (ApiError.display ⟨some c, msg⟩ =
      msg ++ bytes " (" ++ natToDec c ++ bytes ")") ∧
    (ApiError.display ⟨none, msg⟩ = msg) := by
  refine ⟨?_, ?_, ?_, ?_, ?_⟩
  · constructor
    · intro h; subst h; exact ⟨rfl, rfl⟩
    · rintro ⟨h1, h2⟩
      obtain ⟨c1, m1⟩ := a; obtain ⟨c2, m2⟩ := b
      simp_all
  · simp +decide [ApiError.fromJson, apiErrorFromFields, messageFromJson]
  · simp +decide [ApiError.fromJson, apiErrorFromFields, codeFromJson]
  · simp [ApiError.display, format_code, List.append_assoc]
  · simp [ApiError.display, format_code]

/-- The merged error-variant space of an endpoint: the two universal
variants plus the endpoint-specific ones. -/
inductive ErrVariant (α : Type) where
  | authenticationFailed
  | rateLimitExceeded
  | endpointSpecific (v : α)
  deriving DecidableEq

/-- The merged error-status table built by the EndpointNoParse macro in
src/endpoint.rs: the universal entries 401 to AuthenticationFailed and
429 to RateLimitExceeded stand ahead of the author-declared entries. -/
def mergeErrorTable {α : Type} (declared : List (Nat × α)) :
    List (Nat × ErrVariant α) :=
  (401, .authenticationFailed) :: (429, .rateLimitExceeded) ::
    declared.map (fun p => (p.1, .endpointSpecific p.2))

/-- Outcome of status dispatch for one response. -/
inductive DispatchResult (α : Type) where
  | parseSuccess
  | apiErr (v : ErrVariant α)
  | unexpectedStatus
  deriving DecidableEq

/-- Modelled from the spec: the dispatch algorithm of section 4.2 (the
EndpointDef macro body is not under src/): the success table is checked
first, then the first matching entry of the merged error table wins,
otherwise the residual unexpected-status case applies. -/
def dispatchStatus {α : Type} (success : List Nat)
    (errTable : List (Nat × ErrVariant α)) (status : Nat) : DispatchResult α :=
  if status ∈ success then .parseSuccess
  else
    match errTable.find? (fun p => p.1 == status) with
    | some p => .apiErr p.2
    | none => .unexpectedStatus

/-- C1: for every endpoint the merged error table contains the universal
401 and 429 entries, and dispatch on 401 (resp. 429) yields
AuthenticationFailed (resp. RateLimitExceeded) regardless of the
author-declared entries, even when those also list 401 or 429. -/
theorem universal_error_entries {α : Type} (declared : List (Nat × α))
    (success : List Nat) (h401 : 401 ∉ success) (h429 : 429 ∉ success) :
    ((401, (ErrVariant.authenticationFailed : ErrVariant α)) ∈
        mergeErrorTable declared ∧
      (429, (ErrVariant.rateLimitExceeded : ErrVariant α)) ∈
        mergeErrorTable declared) ∧
    dispatchStatus success (mergeErrorTable declared) 401 =
      .apiErr .authenticationFailed ∧
    dispatchStatus success (mergeErrorTable declared) 429 =
      .apiErr .rateLimitExceeded := by
  refine ⟨⟨by simp [mergeErrorTable], by simp [mergeErrorTable]⟩, ?_, ?_⟩
  · rw [dispatchStatus, if_neg h401]
    simp [mergeErrorTable]
  · rw [dispatchStatus, if_neg h429]
    simp [mergeErrorTable]

/-- Witness for universal_error_entries at an endpoint whose declared
table itself lists 401 and a specific 404 variant. -/
theorem universal_error_entries_witness :
    ((401 : Nat) ∉ ([200] : List Nat)) ∧ ((429 : Nat) ∉ ([200] : List Nat)) ∧
    (((401, (ErrVariant.authenticationFailed : ErrVariant Nat)) ∈
        mergeErrorTable [(401, 7), (404, 9)] ∧
      (429, (ErrVariant.rateLimitExceeded : ErrVariant Nat)) ∈
        mergeErrorTable [(401, 7), (404, 9)]) ∧
     dispatchStatus [200] (mergeErrorTable [(401, 7), (404, 9)]) 401 =
       .apiErr .authenticationFailed ∧
     dispatchStatus [200] (mergeErrorTable [(401, 7), (404, 9)]) 429 =
       .apiErr .rateLimitExceeded) :=
  ⟨by decide, by decide,
    universal_error_entries [(401, 7), (404, 9)] [200] (by decide) (by decide)⟩

/-- Is the byte a UTF-8 continuation byte? -/
def contByte (c : Nat) : Bool := decide (128 ≤ c ∧ c ≤ 191)

/-- UTF-8 validity of a byte string, a model of the
OsString::into_string check performed by ApiInfo::from_env. -/
def utf8Valid : RStr → Bool
  | [] => true
  | b :: rest =>
    if b ≤ 127 then utf8Valid rest
    else if 194 ≤ b ∧ b ≤ 223 then
      match rest with
      | c1 :: rest2 => contByte c1 && utf8Valid rest2
      | [] => false
    else if 224 ≤ b ∧ b ≤ 239 then
      match rest with
      | c1 :: c2 :: rest2 =>
        (if b = 224 then decide (160 ≤ c1 ∧ c1 ≤ 191)
         else if b = 237 then decide (128 ≤ c1 ∧ c1 ≤ 159)
         else contByte c1) && contByte c2 && utf8Valid rest2
      | _ => false
    else if 240 ≤ b ∧ b ≤ 244 then
      match rest with
      | c1 :: c2 :: c3 :: rest2 =>
        (if b = 240 then decide (144 ≤ c1 ∧ c1 ≤ 191)
         else if b = 244 then decide (128 ≤ c1 ∧ c1 ≤ 143)
         else contByte c1) && contByte c2 && contByte c3 && utf8Valid rest2
      | _ => false
    else false

/-- Is the byte an ASCII letter? -/
def isAlphaByte (b : Nat) : Bool :=
  decide ((65 ≤ b ∧ b ≤ 90) ∨ (97 ≤ b ∧ b ≤ 122))

/-- Scheme tail scanner: letters until the literal "://". -/
def schemeRest : RStr → Bool
  | 58 :: 47 :: 47 :: _ => true
  | c :: rest => isAlphaByte c && schemeRest rest
  | [] => false

/-- Validity model for the third-party url crate: an alphabetic scheme
followed by "://" and anything after. -/
def urlValid : RStr → Bool
  | b :: rest => isAlphaByte b && schemeRest rest
  | [] => false

/-- A parsed URL, modelling the third-party url crate's Url as the
accepted raw string. -/
structure Url where
  raw : RStr
  deriving DecidableEq

/-- Model of Url::parse: accept exactly the valid strings. -/
def urlParse (s : RStr) : Option Url :=
  if urlValid s then some ⟨s⟩ else none

/-- Modelled from the spec: crate::api::API_BASE_URL (not under src/) is
the known production endpoint used when the base-URL variable is unset. -/
def API_BASE_URL : RStr := bytes "https://api.alpaca.markets/"

/-- Name of the base URL environment variable (src/api_info.rs). -/
def ENV_API_URL : RStr := bytes "APCA_API_BASE_URL"

/-- Name of the key-ID environment variable (src/api_info.rs). -/
def ENV_KEY_ID : RStr := bytes "APCA_API_KEY_ID"

/-- Name of the secret-key environment variable (src/api_info.rs). -/
def ENV_SECRET : RStr := bytes "APCA_API_SECRET_KEY"

/-- Modelled from the spec and its uses in src/api_info.rs: crate::Error
(not under src/), with the Str variant used by from_env and a variant
covering URL parse failures. -/
inductive ApcaError where
  | str (msg : RStr)
  | urlParseFailed
  deriving DecidableEq

/-- The ApiInfo configuration object (src/api_info.rs). -/
structure ApiInfo where
  base_url : Url
  key_id : RStr
  secret : RStr
  deriving DecidableEq

/-- ApiInfo::from_env (src/api_info.rs), with the process environment
modelled as a partial map from variable names to byte strings: the base
URL comes from APCA_API_BASE_URL or defaults to the production endpoint,
must be a valid string and parse as a URL; the key ID and secret are
required and their absence is a hard error. -/
def ApiInfo.from_env (env : RStr → Option RStr) : Except ApcaError ApiInfo :=
  let raw := (env ENV_API_URL).getD API_BASE_URL
  if utf8Valid raw then
    match urlParse raw with
    | some u =>
      (match env ENV_KEY_ID with
       | none => .error (.str (ENV_KEY_ID ++ bytes " environment variable not found"))
       | some key =>
         match env ENV_SECRET with
         | none => .error (.str (ENV_SECRET ++ bytes " environment variable not found"))
         | some sec => .ok ⟨u, key, sec⟩)
    | none => .error .urlParseFailed
  else
    .error (.str (ENV_API_URL ++ bytes " environment variable is not a valid string"))

/-- C8: from_env takes its base URL from the base-URL variable when that
is set (and well-formed), falls back to the known production endpoint
when it is unset, and returns a hard error whenever the key-ID variable
or the secret-key variable is absent. -/
theorem from_env_spec (env : RStr → Option RStr) (u k s : RStr) :
    (env ENV_API_URL = some u → utf8Valid u = true → urlValid u = true →
      env ENV_KEY_ID = some k → env ENV_SECRET = some s →
      ApiInfo.from_env env = .ok ⟨⟨u⟩, k, s⟩) ∧
    (env ENV_API_URL = none → env ENV_KEY_ID = some k →
      env ENV_SECRET = some s →
      ApiInfo.from_env env = .ok ⟨⟨API_BASE_URL⟩, k, s⟩) ∧
    (env ENV_KEY_ID = none → ∃ e, ApiInfo.from_env env = .error e) ∧
    (env ENV_SECRET = none → ∃ e, ApiInfo.from_env env = .error e) := by
  refine ⟨?_, ?_, ?_, ?_⟩
  · intro h1 h2 h3 h4 h5
    simp [ApiInfo.from_env, h1, h2, urlParse, h3, h4, h5]
  · intro h1 h2 h3
    have hu : utf8Valid API_BASE_URL = true := by decide
    have hv : urlValid API_BASE_URL = true := by decide
    simp [ApiInfo.from_env, h1, hu, urlParse, hv, h2, h3]
  · intro hk
    rw [ApiInfo.from_env]
    split
    · split
      · rw [hk]; exact ⟨_, rfl⟩
      · exact ⟨_, rfl⟩
    · exact ⟨_, rfl⟩
  · intro hs
    rw [ApiInfo.from_env]
    split
    · split
      · rcases henv : env ENV_KEY_ID with _ | key
        · exact ⟨_, rfl⟩
        · rw [hs]; exact ⟨_, rfl⟩
      · exact ⟨_, rfl⟩
    · exact ⟨_, rfl⟩

/-- A concrete environment for the from_env witness. -/
def envExample : RStr → Option RStr := fun v =>
  if v = ENV_API_URL then some (bytes "https://alt.example/")
  else if v = ENV_KEY_ID then some (bytes "key-id")
  else if v = ENV_SECRET then some (bytes "secret")
  else none

/-- Witness for from_env_spec: a fully populated environment yields the
configured base URL, and the empty environment hard-errors. -/
theorem from_env_spec_witness :
    (envExample ENV_API_URL = some (bytes "https://alt.example/")) ∧
    (utf8Valid (bytes "https://alt.example/") = true) ∧
    (urlValid (bytes "https://alt.example/") = true) ∧
    (envExample ENV_KEY_ID = some (bytes "key-id")) ∧
    (envExample ENV_SECRET = some (bytes "secret")) ∧
    (ApiInfo.from_env envExample =
      .ok ⟨⟨bytes "https://alt.example/"⟩, bytes "key-id", bytes "secret"⟩) ∧
    ((fun _ : RStr => (none : Option RStr)) ENV_KEY_ID = none) ∧
    (∃ e, ApiInfo.from_env (fun _ => none) = .error e) :=
  ⟨by decide, by decide, by decide, by decide, by decide,
   (from_env_spec envExample (bytes "https://alt.example/") (bytes "key-id")
       (bytes "secret")).1
     (by decide) (by decide) (by decide) (by decide) (by decide),
   rfl,
   (from_env_spec (fun _ => none) [] [] []).2.2.1 rfl⟩
